import Mathlib

/-!
terraform-provider-http: the `read` operation of the `http` data source.

A shallow embedding of `src/main.go` (function `read`, and the schema defaults
declared in `Provider`) together with the small part of `src/main_test.go`
that the header round trip depends on (the handler inside `run`).

Conventions of the embedding.

* A Go `string` / `[]byte` is a finite sequence of bytes: `GoString`.
  The conversions `[]byte(s)` and `string(b)` are the identity on it.
* A Go `map[string]V` is an association list `GoMap V`.  Writing `m[k] = v`
  is `GoMap.set`, reading `m[k]` is `GoMap.lookup` (`GoMap.getD` with the zero
  value).  Where the program ranges over a map, the list is the sequence of
  entries in the order that `range` produced them during that call; Go leaves
  that order unspecified, so two calls may see two permutations.
* Everything outside the process (request validation by `net/http`, the
  network exchange, the draining of the response body) is an explicit
  parameter `Http`.
* Library functions the program calls (`strings.Join`, `strings.Split`,
  `http.Header.Set`, `http.Header.Add`, `sha1`, `fmt` verbs `%d` `%x`, and the
  map writer and reader behind `data.Set`) are modelled by executable
  definitions that follow their Go implementation.
-/

namespace HttpProvider

/-! ## Go strings -/

/-- A Go string or byte slice: a finite sequence of bytes. -/
abbrev GoString := List UInt8

/-- The bytes of a string literal of the source (Go source text is UTF-8). -/
def str (s : String) : GoString := s.toList.flatMap String.utf8EncodeChar

/-- The separator literal of `strings.Join(v, ", ")` and `strings.Split(v, ", ")`. -/
def commaSpace : GoString := str ", "

/-- Go `strings.Join(elems, sep)`. -/
def join : List GoString → GoString → GoString
  | [], _ => []
  | [a], _ => a
  | a :: b :: rest, sep => a ++ sep ++ join (b :: rest) sep

/-- Go `strings.HasPrefix(s, p)`. -/
def hasPrefix : GoString → GoString → Bool
  | _, [] => true
  | [], _ :: _ => false
  | a :: s, b :: p => a == b && hasPrefix s p

/-- Go `strings.Index(s, sep)`: the first position at which `sep` occurs in
`s`, `none` standing for the result `-1`. -/
def index : GoString → GoString → Option Nat
  | [], sep => if sep = [] then some 0 else none
  | c :: cs, sep =>
    if hasPrefix (c :: cs) sep then some 0 else (index cs sep).map (· + 1)

/-- The loop of Go `strings.Count(s, substr)` for a non-empty `substr`: the
number of non-overlapping occurrences.  Every round that finds an occurrence
drops at least one byte, so `s.length` rounds suffice. -/
def countLoop : Nat → GoString → GoString → Nat
  | 0, _, _ => 0
  | fuel + 1, s, substr =>
    match index s substr with
    | none => 0
    | some i => countLoop fuel (s.drop (i + substr.length)) substr + 1

/-- Go `strings.Count(s, substr)`, `substr` non-empty. -/
def count (s substr : GoString) : Nat := countLoop s.length s substr

/-- The loop of Go `strings.genSplit(s, sep, 0, n)`: at most `n` pieces are cut
off at an occurrence of `sep`, and what remains of `s` is the last piece. -/
def genSplitLoop (sep : GoString) : Nat → GoString → List GoString
  | 0, s => [s]
  | n + 1, s =>
    match index s sep with
    | none => [s]
    | some m => s.take m :: genSplitLoop sep n (s.drop (m + sep.length))

/-- Go `strings.Split(s, sep)` on the path taken for a non-empty `sep` (the
program only splits on `", "`): `n = Count(s, sep) + 1`, capped at
`len(s) + 1`, and the loop runs while `i < n - 1`. -/
def split (s sep : GoString) : List GoString :=
  genSplitLoop sep (min (count s sep + 1) (s.length + 1) - 1) s

/-- Go `fmt` verb `%d` applied to an `int`. -/
def formatInt : Int → GoString
  | Int.ofNat n => str (Nat.repr n)
  | Int.negSucc n => str "-" ++ str (Nat.repr (n + 1))

/-- One lowercase hexadecimal digit, as `fmt` writes it for `%x`. -/
def hexDigit (n : Nat) : UInt8 :=
  if n < 10 then UInt8.ofNat (48 + n) else UInt8.ofNat (87 + n)

/-- Go `fmt.Sprintf("%x", b)` for a byte slice `b`: two lowercase hexadecimal
digits per byte, high nibble first. -/
def hexEncode : List UInt8 → GoString
  | [] => []
  | x :: rest => hexDigit (x.toNat / 16) :: hexDigit (x.toNat % 16) :: hexEncode rest

/-! ## Go maps -/

/-- A Go `map[string]V`, as the list of its entries. -/
abbrev GoMap (V : Type) := List (GoString × V)

/-- Reading `m[k]` with the comma-ok form. -/
def GoMap.lookup {V : Type} : GoMap V → GoString → Option V
  | [], _ => none
  | (k', v) :: rest, k => if k' = k then some v else GoMap.lookup rest k

/-- Reading `m[k]`; a missing key gives the zero value `z`. -/
def GoMap.getD {V : Type} (m : GoMap V) (k : GoString) (z : V) : V :=
  (m.lookup k).getD z

/-- The assignment `m[k] = v`. -/
def GoMap.set {V : Type} : GoMap V → GoString → V → GoMap V
  | [], k, v => [(k, v)]
  | (k', v') :: rest, k, v =>
    if k' = k then (k, v) :: rest else (k', v') :: GoMap.set rest k v

/-- The key set of a map, in entry order. -/
def GoMap.keys {V : Type} (m : GoMap V) : List GoString := m.map Prod.fst

/-! ## `net/textproto` header keys and `net/http.Header` -/

/-- Go `textproto.validHeaderFieldByte`: the token bytes of RFC 7230. -/
def validHeaderFieldByte (c : UInt8) : Bool :=
  (48 ≤ c && c ≤ 57) || (65 ≤ c && c ≤ 90) || (97 ≤ c && c ≤ 122) ||
  c == 33 || c == 35 || c == 36 || c == 37 || c == 38 || c == 39 || c == 42 ||
  c == 43 || c == 45 || c == 46 || c == 94 || c == 95 || c == 96 || c == 124 ||
  c == 126

/-- The quick check at the head of Go `textproto.CanonicalMIMEHeaderKey`:
`true` when a letter of the wrong case is met before any invalid byte, which
is when the slow path is taken. -/
def needsCanon : Bool → GoString → Bool
  | _, [] => false
  | upper, c :: rest =>
    if !validHeaderFieldByte c then false
    else if upper && (97 ≤ c && c ≤ 122) then true
    else if !upper && (65 ≤ c && c ≤ 90) then true
    else needsCanon (c == 45) rest

/-- The casing loop of Go `textproto.canonicalMIMEHeaderKey`: upper case for the
first letter and for a letter after a dash, lower case elsewhere. -/
def canonCase : Bool → GoString → GoString
  | _, [] => []
  | upper, c :: rest =>
    let c' := if upper && (97 ≤ c && c ≤ 122) then c - 32
              else if !upper && (65 ≤ c && c ≤ 90) then c + 32
              else c
    c' :: canonCase (c' == 45) rest

/-- Go `textproto.canonicalMIMEHeaderKey` (the slow path): a key holding a
byte that is not a token byte is returned unchanged. -/
def canonicalMIMEHeaderKeySlow (a : GoString) : GoString :=
  if a.all validHeaderFieldByte then canonCase true a else a

/-- Go `textproto.CanonicalMIMEHeaderKey`. -/
def CanonicalMIMEHeaderKey (s : GoString) : GoString :=
  if needsCanon true s then canonicalMIMEHeaderKeySlow s else s

/-- Go `http.Header`: `map[string][]string`. -/
abbrev Header := GoMap (List GoString)

/-- Go `http.Header.Set(key, value)`:
`h[CanonicalMIMEHeaderKey(key)] = []string{value}`. -/
def Header.Set (h : Header) (key value : GoString) : Header :=
  GoMap.set h (CanonicalMIMEHeaderKey key) [value]

/-- Go `http.Header.Add(key, value)`:
`h[key] = append(h[key], value)` at the canonical key. -/
def Header.Add (h : Header) (key value : GoString) : Header :=
  GoMap.set h (CanonicalMIMEHeaderKey key)
    (GoMap.getD h (CanonicalMIMEHeaderKey key) [] ++ [value])

/-! ## SHA-1 (`crypto/sha1`) -/

/-- Rotate a 32-bit word left by `n` bits. -/
def rotl32 (x n : Nat) : Nat := ((x <<< n) ||| (x >>> (32 - n))) % 2 ^ 32

/-- A big-endian 32-bit word from four bytes. -/
def beWord (a b c d : UInt8) : Nat :=
  a.toNat <<< 24 ||| b.toNat <<< 16 ||| c.toNat <<< 8 ||| d.toNat

/-- The first `n` big-endian words of a block. -/
def blockWords : Nat → List UInt8 → List Nat
  | 0, _ => []
  | n + 1, a :: b :: c :: d :: rest => beWord a b c d :: blockWords n rest
  | _ + 1, _ => []

/-- The message schedule: `n` more words, each the rotated xor of the words
3, 8, 14 and 16 places back. -/
def schedule : Nat → List Nat → List Nat
  | 0, w => w
  | n + 1, w =>
    let i := w.length
    schedule n (w ++ [rotl32 (w.getD (i - 3) 0 ^^^ w.getD (i - 8) 0 ^^^
      w.getD (i - 14) 0 ^^^ w.getD (i - 16) 0) 1])

/-- The five chaining words of SHA-1. -/
structure Sha1State where
  h0 : Nat
  h1 : Nat
  h2 : Nat
  h3 : Nat
  h4 : Nat
deriving DecidableEq

/-- The constants `init0 .. init4` of `crypto/sha1`. -/
def sha1Init : Sha1State :=
  ⟨0x67452301, 0xEFCDAB89, 0x98BADCFE, 0x10325476, 0xC3D2E1F0⟩

/-- The round function of round `i`. -/
def roundF (i b c d : Nat) : Nat :=
  if i < 20 then (b &&& c) ||| ((b ^^^ 0xFFFFFFFF) &&& d)
  else if i < 40 then b ^^^ c ^^^ d
  else if i < 60 then ((b ||| c) &&& d) ||| (b &&& c)
  else b ^^^ c ^^^ d

/-- The round constant of round `i` (`_K0 .. _K3`). -/
def roundK (i : Nat) : Nat :=
  if i < 20 then 0x5A827999 else if i < 40 then 0x6ED9EBA1
  else if i < 60 then 0x8F1BBCDC else 0xCA62C1D6

/-- The 80 rounds over the scheduled words, from round `i` on. -/
def rounds : List Nat → Nat → Sha1State → Sha1State
  | [], _, s => s
  | w :: ws, i, ⟨a, b, c, d, e⟩ =>
    let t := (rotl32 a 5 + roundF i b c d + e + w + roundK i) % 2 ^ 32
    rounds ws (i + 1) ⟨t, a, rotl32 b 30, c, d⟩

/-- Compression of one 64-byte block (`blockGeneric`, one iteration). -/
def block (s : Sha1State) (p : List UInt8) : Sha1State :=
  let w := schedule 64 (blockWords 16 p)
  let r := rounds w 0 s
  ⟨(s.h0 + r.h0) % 2 ^ 32, (s.h1 + r.h1) % 2 ^ 32, (s.h2 + r.h2) % 2 ^ 32,
   (s.h3 + r.h3) % 2 ^ 32, (s.h4 + r.h4) % 2 ^ 32⟩

/-- Compression of `n` consecutive 64-byte blocks. -/
def blocks : Nat → Sha1State → List UInt8 → Sha1State
  | 0, s, _ => s
  | n + 1, s, p => blocks n (block s p) (p.drop 64)

/-- Big-endian rendering of `x` on `n` bytes. -/
def putUint : Nat → Nat → List UInt8
  | 0, _ => []
  | n + 1, x => UInt8.ofNat (x >>> (8 * n)) :: putUint n x

/-- The padding `checkSum` appends to a message of `len` bytes: `0x80`, zeros
up to 56 modulo 64, then the length in bits on 8 bytes. -/
def sha1Pad (len : Nat) : List UInt8 :=
  let t := if len % 64 < 56 then 56 - len % 64 else 64 + 56 - len % 64
  (0x80 : UInt8) :: List.replicate (t - 1) 0 ++ putUint 8 ((len <<< 3) % 2 ^ 64)

/-- The SHA-1 digest of a message (20 bytes). -/
def sha1Sum (m : GoString) : List UInt8 :=
  let p := m ++ sha1Pad m.length
  let s := blocks (p.length / 64) sha1Init p
  putUint 4 s.h0 ++ putUint 4 s.h1 ++ putUint 4 s.h2 ++ putUint 4 s.h3 ++ putUint 4 s.h4

/-- The streaming accumulator `hash.Hash` returned by `sha1.New()`, abstracted
to the bytes written so far: the digest of a stream is the digest of the
concatenation of the chunks written. -/
structure Digest where
  written : GoString
deriving DecidableEq

/-- Go `sha1.New()`. -/
def sha1New : Digest := ⟨[]⟩

/-- Go `hash.Write(p)`. -/
def Digest.Write (d : Digest) (p : GoString) : Digest := ⟨d.written ++ p⟩

/-- Go `hash.Sum(nil)`. -/
def Digest.Sum (d : Digest) : List UInt8 := sha1Sum d.written

/-! ## Map attributes (`terraform-plugin-sdk/v2/helper/schema`) -/

/-- The key under which the SDK keeps the number of entries of a map attribute. -/
def countKey : GoString := str "%"

/-- The key under which the SDK keeps the number of elements of a list attribute. -/
def listCountKey : GoString := str "#"

/-- The entries `MapFieldWriter.setMap` leaves under a map attribute, keyed by
what follows the attribute's name and its dot: one entry per key of `m`, and
then the number of keys, in decimal, under `%`, replacing an entry of that
name. -/
def writeMap (m : GoMap GoString) : GoMap GoString :=
  GoMap.set m countKey (formatInt (Int.ofNat m.length))

/-- The map `MapFieldReader.readMap` gives back from the written entries: all
of them except the keys `%` and `#`. -/
def readMap (w : GoMap GoString) : GoMap GoString :=
  w.filter fun e => e.1 != countKey && e.1 != listCountKey

/-- The value of a map attribute after `data.Set(key, m)`, as the SDK reads it
back for the state. -/
def setMapAttr (m : GoMap GoString) : GoMap GoString := readMap (writeMap m)

/-! ## Diagnostics (`terraform-plugin-sdk/v2/diag`) -/

/-- Severity of a diagnostic. -/
inductive Severity where
  | Error
  | Warning
deriving DecidableEq

/-- One diagnostic: severity and summary. -/
structure Diagnostic where
  severity : Severity
  summary : GoString
deriving DecidableEq

/-- A `diag.Diagnostics` value; the empty list is `nil`. -/
abbrev Diagnostics := List Diagnostic

/-- Go `diag.Errorf(format, a...)` after formatting: one error diagnostic
whose summary is the formatted message. -/
def diagErrorf (msg : GoString) : Diagnostics := [⟨Severity.Error, msg⟩]

/-- Go `diag.FromErr(err)`: one error diagnostic whose summary is `err.Error()`. -/
def diagFromErr (err : GoString) : Diagnostics := [⟨Severity.Error, err⟩]

/-- Go `Diagnostics.HasError()`. -/
def hasError (d : Diagnostics) : Bool := d.any fun x => x.severity == Severity.Error

/-! ## Requests, responses and the outside world -/

/-- The part of `*http.Request` the program touches. -/
structure Request where
  method : GoString
  url : GoString
  body : GoString
  header : Header
deriving DecidableEq

/-- The part of `*http.Response` the program touches.  `header` lists the
entries of `resp.Header` in the order `range` yields them in this call;
`bodyBytes` and `bodyErr` are the two results of `ioutil.ReadAll(resp.Body)`. -/
structure Response where
  statusCode : Int
  header : Header
  bodyBytes : GoString
  bodyErr : Option GoString
deriving DecidableEq

/-- The outside world of one call.  `newRequestErr method url` is the error of
`http.NewRequestWithContext` (invalid method, unparsable URL), if any;
`clientDo` is `http.DefaultClient.Do`. -/
structure Http where
  newRequestErr : GoString → GoString → Option GoString
  clientDo : Request → Except GoString Response

/-- The `*schema.ResourceData` of the `http` data source.  The first five
fields are the configuration (`headers` in the order `range` yields its
entries in this call; an unset optional attribute is `none`); the last three
are the values `data.Set` and `data.SetId` have given to the computed
attributes, as the SDK reads them back; `none` while unwritten. -/
structure ResourceData where
  url : GoString
  headers : GoMap GoString
  method : Option GoString
  body : Option GoString
  status : Option Int
  response_headers : Option (GoMap GoString)
  response_body : Option GoString
  id : Option GoString
deriving DecidableEq

/-- Schema default of `method`: `http.MethodGet`. -/
def defaultMethod : GoString := str "GET"

/-- Schema default of `status`: `http.StatusOK`. -/
def defaultStatus : Int := 200

/-- Go `data.Get("method").(string)`. -/
def ResourceData.getMethod (data : ResourceData) : GoString := data.method.getD defaultMethod

/-- Go `data.Get("body").(string)`; no default, so the zero value. -/
def ResourceData.getBody (data : ResourceData) : GoString := data.body.getD []

/-- Go `data.Get("status").(int)`. -/
def ResourceData.getStatus (data : ResourceData) : Int := data.status.getD defaultStatus

/-! ## `read` -/

/-- Lines 27-29 of `main.go`: `for name, value := range headers
{ req.Header.Set(name, value.(string)) }`. -/
def setHeaders : Request → GoMap GoString → Request
  | req, [] => req
  | req, (name, value) :: rest =>
    setHeaders { req with header := Header.Set req.header name value } rest

/-- Lines 23-29 of `main.go`: the request as it is handed to the client. The
request made by `http.NewRequestWithContext` has an empty header map. -/
def buildRequest (data : ResourceData) : Request :=
  setHeaders ⟨data.getMethod, data.url, data.getBody, []⟩ data.headers

/-- Lines 48-51 of `main.go`: `for k, v := range resp.Header
{ responseHeaders[k] = strings.Join(v, ", "); hash.Write([]byte(responseHeaders[k])) }`. -/
def responseLoop : Header → GoMap GoString → Digest → GoMap GoString × Digest
  | [], responseHeaders, hash => (responseHeaders, hash)
  | (k, v) :: rest, responseHeaders, hash =>
    let responseHeaders := GoMap.set responseHeaders k (join v commaSpace)
    let hash := hash.Write (GoMap.getD responseHeaders k [])
    responseLoop rest responseHeaders hash

/-- The function `read` of `main.go`: the diagnostics it returns and the
resource data it leaves behind. -/
def read (env : Http) (data : ResourceData) : Diagnostics × ResourceData :=
  let status := data.getStatus
  match env.newRequestErr data.getMethod data.url with
  | some err => (diagErrorf (str "Error creating http request: " ++ err), data)
  | none =>
    match env.clientDo (buildRequest data) with
    | Except.error err => (diagErrorf (str "Error performing http request: " ++ err), data)
    | Except.ok resp =>
      if resp.statusCode ≠ status then
        (diagErrorf (str "HTTP status code does not match: expected " ++ formatInt status ++
          str " actual " ++ formatInt resp.statusCode), data)
      else
        let hash := sha1New
        match resp.bodyErr with
        | some err => (diagFromErr err, data)
        | none =>
          let bytes := resp.bodyBytes
          let hash := hash.Write bytes
          let (responseHeaders, hash) := responseLoop resp.header [] hash
          let id := hexEncode hash.Sum
          ([], { data with response_headers := some (setMapAttr responseHeaders),
                           response_body := some bytes,
                           id := some id })

/-! ## The test server of `main_test.go` -/

/-- Lines 60-62 of `main_test.go`: `for _, v := range strings.Split(v, ", ")
{ w.Header().Add(k, v) }`, over the pieces already split. -/
def addPieces : Header → GoString → List GoString → Header
  | h, _, [] => h
  | h, k, p :: rest => addPieces (Header.Add h k p) k rest

/-- Lines 59-63 of `main_test.go`: the response header map the handler
builds from `c.responseHeaders`. -/
def serverHeaders : Header → GoMap GoString → Header
  | h, [] => h
  | h, (k, v) :: rest => serverHeaders (addPieces h k (split v commaSpace)) rest

/-! ## Specification-side notions -/

/-- The call succeeds against `resp`: the request is built, the client returns
`resp`, its status is the expected one and its body is drained without error. -/
def Succeeds (env : Http) (data : ResourceData) (resp : Response) : Prop :=
  env.newRequestErr data.getMethod data.url = none ∧
  env.clientDo (buildRequest data) = Except.ok resp ∧
  resp.statusCode = data.getStatus ∧
  resp.bodyErr = none

/-- Step 7 of the specification, the header part of the hash input: for each
header name in iteration order, its values joined with `", "`, one after the
other, with no header name and no delimiter in between. -/
def joinedValues (hs : Header) : GoString := hs.flatMap fun e => join e.2 commaSpace

/-! ## Concrete worlds and inputs -/

/-- A world in which every request is accepted and answered by `resp`. -/
def constHttp (resp : Response) : Http := ⟨fun _ _ => none, fun _ => Except.ok resp⟩

/-- A configuration that sets only `url`. -/
def getData (url : GoString) : ResourceData := ⟨url, [], none, none, none, none, none, none⟩

/-- The configuration used in the concrete instances below. -/
def exampleData : ResourceData := getData (str "http://127.0.0.1:8080")

/-- The response of `TestDataSource_Simple`. -/
def respSimple : Response := ⟨200, [(str "X-Test", [str "test"])], str "test", none⟩

/-- The `responseHeaders` of `TestDataSource_Headers`. -/
def headersConfig : GoMap GoString :=
  [(str "X-Test", str "test"), (str "X-Test-Multi", str "test-1, test-2")]

/-- The response of `TestDataSource_Headers`, its headers built by the handler. -/
def respHeaders : Response := ⟨200, serverHeaders [] headersConfig, str "test", none⟩

/-- The response of `TestDataSource_NotFound`. -/
def respNotFound : Response := ⟨404, [], [], none⟩

/-- A response with status 200 and an empty body. -/
def respEmpty : Response := ⟨200, [], [], none⟩

/-- A response with status 200 whose body cannot be drained. -/
def respTruncated : Response := ⟨200, [], [], some (str "unexpected EOF")⟩

/-- A response with two headers, ranged over as `A`, `B`. -/
def respAB : Response := ⟨200, [(str "A", [str "x"]), (str "B", [str "y"])], str "test", none⟩

/-- The same response, its header map ranged over as `B`, `A`. -/
def respBA : Response := ⟨200, [(str "B", [str "y"]), (str "A", [str "x"])], str "test", none⟩

/-- Body `ab`, one header of value `c`. -/
def respAbC : Response := ⟨200, [(str "X-Test", [str "c"])], str "ab", none⟩

/-- Body `a`, one header of value `bc`. -/
def respABc : Response := ⟨200, [(str "X-Test", [str "bc"])], str "a", none⟩

/-- A response with one header, named `%`. -/
def respPercent : Response := ⟨200, [(str "%", [str "v"])], str "test", none⟩

/-- Body `tesu`, the header of `respSimple`. -/
def respOtherBody : Response := ⟨200, [(str "X-Test", [str "test"])], str "tesu", none⟩
/-! ## Maps -/

/-- Reading a key just written gives the value written. -/
theorem lookup_set_self {V : Type} (m : GoMap V) (k : GoString) (v : V) :
    (GoMap.set m k v).lookup k = some v := by
  induction m with
  | nil => simp [GoMap.set, GoMap.lookup]
  | cons e rest ih =>
    obtain ⟨k', v'⟩ := e
    by_cases h : k' = k
    · simp [GoMap.set, GoMap.lookup, h]
    · simp [GoMap.set, GoMap.lookup, h, ih]

/-- Writing a key leaves every other key as it was. -/
theorem lookup_set_ne {V : Type} (m : GoMap V) (k n : GoString) (v : V) (h : k ≠ n) :
    (GoMap.set m k v).lookup n = m.lookup n := by
  induction m with
  | nil => simp [GoMap.set, GoMap.lookup, h]
  | cons e rest ih =>
    obtain ⟨k', v'⟩ := e
    by_cases h' : k' = k
    · subst h'
      simp [GoMap.set, GoMap.lookup, h]
    · by_cases h'' : k' = n
      · subst h''
        simp [GoMap.set, GoMap.lookup, h']
      · simp [GoMap.set, GoMap.lookup, h', h'', ih]

theorem getD_set_self {V : Type} (m : GoMap V) (k : GoString) (v z : V) :
    GoMap.getD (GoMap.set m k v) k z = v := by
  simp [GoMap.getD, lookup_set_self]

theorem lookup_eq_none_of_not_mem {V : Type} (m : GoMap V) (k : GoString)
    (h : k ∉ m.keys) : m.lookup k = none := by
  induction m with
  | nil => rfl
  | cons e rest ih =>
    obtain ⟨k', v'⟩ := e
    simp only [GoMap.keys, List.map_cons, List.mem_cons, not_or] at h
    have h1 : k' ≠ k := fun hk => h.1 hk.symm
    simp only [GoMap.lookup, h1, if_false]
    exact ih h.2

/-! ## The response loop -/

/-- The loop over the response headers writes the joined values, in order. -/
theorem responseLoop_written (hs : Header) (rh : GoMap GoString) (h : Digest) :
    (responseLoop hs rh h).2.written = h.written ++ joinedValues hs := by
  induction hs generalizing rh h with
  | nil => simp [responseLoop, joinedValues]
  | cons e rest ih =>
    obtain ⟨k, v⟩ := e
    simp only [responseLoop, ih, getD_set_self, Digest.Write, joinedValues, List.flatMap_cons,
      List.append_assoc]

theorem responseLoop_lookup_not_mem (hs : Header) (rh : GoMap GoString) (h : Digest)
    (n : GoString) (hn : n ∉ hs.keys) :
    (responseLoop hs rh h).1.lookup n = rh.lookup n := by
  induction hs generalizing rh h with
  | nil => rfl
  | cons e rest ih =>
    obtain ⟨k, v⟩ := e
    simp only [GoMap.keys, List.map_cons, List.mem_cons, not_or] at hn
    simp only [responseLoop]
    rw [ih _ _ hn.2, lookup_set_ne _ _ _ _ (fun hk => hn.1 hk.symm)]

/-- After the loop a response header name maps to its joined values. -/
theorem responseLoop_lookup (hs : Header) (rh : GoMap GoString) (h : Digest)
    (n : GoString) (hnd : hs.keys.Nodup) (hn : n ∈ hs.keys) :
    (responseLoop hs rh h).1.lookup n = (hs.lookup n).map fun v => join v commaSpace := by
  induction hs generalizing rh h with
  | nil => simp [GoMap.keys] at hn
  | cons e rest ih =>
    obtain ⟨k, v⟩ := e
    simp only [GoMap.keys, List.map_cons, List.nodup_cons] at hnd
    simp only [responseLoop]
    by_cases hk : k = n
    · subst hk
      rw [responseLoop_lookup_not_mem _ _ _ _ hnd.1, lookup_set_self]
      simp [GoMap.lookup]
    · have hmem : n ∈ GoMap.keys rest := by
        simp only [GoMap.keys, List.map_cons, List.mem_cons] at hn
        rcases hn with hn | hn
        · exact absurd hn.symm hk
        · exact hn
      rw [ih _ _ hnd.2 hmem]
      simp [GoMap.lookup, hk]

/-! ## Map attributes -/

/-- Filtering a map on its keys keeps the entries of the keys that pass. -/
theorem lookup_filter_key {V : Type} (m : GoMap V) (p : GoString → Bool) (k : GoString) :
    GoMap.lookup (m.filter fun e => p e.1) k = if p k = true then m.lookup k else none := by
  induction m with
  | nil => simp [GoMap.lookup]
  | cons e rest ih =>
    obtain ⟨k', v⟩ := e
    by_cases hp : p k' = true
    · rw [List.filter_cons_of_pos (by simpa using hp)]
      by_cases hk : k' = k
      · subst hk
        simp [GoMap.lookup, hp]
      · simp only [GoMap.lookup, hk, if_false]
        exact ih
    · rw [List.filter_cons_of_neg (by simpa using hp)]
      rw [ih]
      by_cases hpk : p k = true
      · have hk : k' ≠ k := fun hk => hp (hk ▸ hpk)
        simp [GoMap.lookup, hpk, hk]
      · simp [hpk]

/-- A key other than `%` and `#` is read back with the value written for it. -/
theorem setMapAttr_lookup (m : GoMap GoString) (k : GoString)
    (h1 : k ≠ countKey) (h2 : k ≠ listCountKey) :
    (setMapAttr m).lookup k = m.lookup k := by
  unfold setMapAttr readMap writeMap
  rw [lookup_filter_key _ (fun k => k != countKey && k != listCountKey) k]
  simp only [bne_iff_ne, ne_eq, h1, h2, not_false_eq_true, Bool.and_self, decide_True,
    Bool.and_eq_true, decide_eq_true_eq, and_self, if_true]
  exact lookup_set_ne _ _ _ _ (fun h => h1 h.symm)

/-- The keys `%` and `#` are never read back. -/
theorem setMapAttr_lookup_count (m : GoMap GoString) :
    (setMapAttr m).lookup countKey = none ∧ (setMapAttr m).lookup listCountKey = none := by
  unfold setMapAttr readMap
  rw [lookup_filter_key _ (fun k => k != countKey && k != listCountKey) countKey,
    lookup_filter_key _ (fun k => k != countKey && k != listCountKey) listCountKey]
  simp

/-! ## `read` on its paths -/

/-- The success path of `read`, spelled out. -/
theorem read_of_succeeds (env : Http) (data : ResourceData) (resp : Response)
    (h : Succeeds env data resp) :
    read env data =
      ([], { data with
        response_headers :=
          some (setMapAttr (responseLoop resp.header [] (sha1New.Write resp.bodyBytes)).1),
        response_body := some resp.bodyBytes,
        id := some (hexEncode (responseLoop resp.header [] (sha1New.Write resp.bodyBytes)).2.Sum) }) := by
  obtain ⟨h1, h2, h3, h4⟩ := h
  simp [read, h1, h2, h3, h4]

/-- Every call either fails and leaves the data untouched, or succeeds against a response. -/
theorem read_error_or_succeeds (env : Http) (data : ResourceData) :
    (hasError (read env data).1 = true ∧ (read env data).2 = data) ∨
    ∃ resp, Succeeds env data resp := by
  unfold read Succeeds
  cases h1 : env.newRequestErr data.getMethod data.url with
  | some err => left; simp [diagErrorf, hasError]
  | none =>
    cases h2 : env.clientDo (buildRequest data) with
    | error err => left; simp [diagErrorf, hasError]
    | ok resp =>
      by_cases h3 : resp.statusCode = data.getStatus
      · cases h4 : resp.bodyErr with
        | some err => left; simp [h3, h4, diagFromErr, hasError]
        | none => right; exact ⟨resp, rfl, rfl, h3, h4⟩
      · left; simp [h3, diagErrorf, hasError]


/-! ## Split and join -/

theorem hasPrefix_eq (s p : GoString) (h : hasPrefix s p = true) :
    s = p ++ s.drop p.length := by
  induction p generalizing s with
  | nil => simp
  | cons b p ih =>
    cases s with
    | nil => simp [hasPrefix] at h
    | cons a s =>
      simp only [hasPrefix, Bool.and_eq_true, beq_iff_eq] at h
      obtain ⟨hab, hp⟩ := h
      subst hab
      simp only [List.length_cons, List.drop_succ_cons, List.cons_append, List.cons.injEq,
        true_and]
      exact ih s hp

/-- An index found by `index` is a position of the separator. -/
theorem index_spec (s sep : GoString) (m : Nat) (h : index s sep = some m) :
    s = s.take m ++ sep ++ s.drop (m + sep.length) := by
  induction s generalizing m with
  | nil =>
    by_cases hs : sep = []
    · simp [hs]
    · simp [index, hs] at h
  | cons c cs ih =>
    simp only [index] at h
    by_cases hp : hasPrefix (c :: cs) sep = true
    · simp only [hp, if_true, Option.some.injEq] at h
      subst h
      simpa using hasPrefix_eq _ _ hp
    · simp only [hp] at h
      cases hi : index cs sep with
      | none => simp [hi] at h
      | some m' =>
      have h : m' + 1 = m := by simpa [hi] using h
      subst h
      have := ih m' hi
      simp only [List.take_succ_cons, List.cons_append, List.cons.injEq, true_and]
      rw [show m' + 1 + sep.length = (m' + sep.length) + 1 by omega, List.drop_succ_cons]
      simpa using this

theorem join_cons (a : GoString) (rest : List GoString) (sep : GoString) (h : rest ≠ []) :
    join (a :: rest) sep = a ++ sep ++ join rest sep := by
  cases rest with
  | nil => exact absurd rfl h
  | cons b rest => rfl

theorem genSplitLoop_ne_nil (sep : GoString) (n : Nat) (s : GoString) :
    genSplitLoop sep n s ≠ [] := by
  cases n with
  | zero => simp [genSplitLoop]
  | succ n =>
    simp only [genSplitLoop]
    split <;> simp

/-- Joining what the split loop cut gives back the input, whatever the number of cuts. -/
theorem join_genSplitLoop (sep : GoString) (n : Nat) (s : GoString) :
    join (genSplitLoop sep n s) sep = s := by
  induction n generalizing s with
  | zero => simp [genSplitLoop, join]
  | succ n ih =>
    simp only [genSplitLoop]
    split
    · simp [join]
    · next m hm =>
      rw [join_cons _ _ _ (genSplitLoop_ne_nil _ _ _), ih]
      exact (index_spec s sep m hm).symm

theorem split_ne_nil (s sep : GoString) : split s sep ≠ [] :=
  genSplitLoop_ne_nil _ _ _

theorem join_split (s sep : GoString) : join (split s sep) sep = s :=
  join_genSplitLoop _ _ _

theorem index_nil (sep : GoString) (h : sep ≠ []) : index [] sep = none := by
  simp [index, h]

theorem index_add_le (s sep : GoString) (m : Nat) (hsep : sep ≠ [])
    (h : index s sep = some m) : m + sep.length ≤ s.length ∧ 0 < sep.length := by
  have hlen := congrArg List.length (index_spec s sep m h)
  have hpos : 0 < sep.length := List.length_pos.mpr hsep
  simp only [List.length_append, List.length_take, List.length_drop] at hlen
  omega

/-- The fuel of `count` is enough: any larger amount counts the same. -/
theorem countLoop_fuel (sep : GoString) (hsep : sep ≠ []) (f g : Nat) (s : GoString)
    (hf : s.length ≤ f) (hg : s.length ≤ g) : countLoop f s sep = countLoop g s sep := by
  induction f generalizing g s with
  | zero =>
    have hs : s = [] := List.length_eq_zero.mp (Nat.le_zero.mp hf)
    subst hs
    cases g with
    | zero => rfl
    | succ g => simp [countLoop, index_nil sep hsep]
  | succ f ih =>
    cases g with
    | zero =>
      have hs : s = [] := List.length_eq_zero.mp (Nat.le_zero.mp hg)
      subst hs
      simp [countLoop, index_nil sep hsep]
    | succ g =>
      simp only [countLoop]
      cases hi : index s sep with
      | none => rfl
      | some i =>
        have hle := index_add_le s sep i hsep hi
        have hd : (s.drop (i + sep.length)).length ≤ s.length - 1 := by
          simp only [List.length_drop]
          omega
        simp only [Nat.add_right_cancel_iff]
        exact ih g _ (by omega) (by omega)

/-- After `count s sep` cuts nothing is left to cut: the last piece of
`split s sep` holds no separator. -/
theorem split_last (sep : GoString) (hsep : sep ≠ []) (f : Nat) (s : GoString)
    (hf : s.length ≤ f) :
    index ((genSplitLoop sep (countLoop f s sep) s).getLast (genSplitLoop_ne_nil _ _ _)) sep =
      none := by
  induction f generalizing s with
  | zero =>
    have hs : s = [] := List.length_eq_zero.mp (Nat.le_zero.mp hf)
    subst hs
    simp [countLoop, genSplitLoop, index_nil sep hsep]
  | succ f ih =>
    cases hi : index s sep with
    | none =>
      have hc : countLoop (f + 1) s sep = 0 := by simp [countLoop, hi]
      simp only [hc, genSplitLoop, List.getLast_singleton, hi]
    | some i =>
      have hle := index_add_le s sep i hsep hi
      have hd : (s.drop (i + sep.length)).length ≤ f := by
        simp only [List.length_drop]
        omega
      have hc : countLoop (f + 1) s sep = countLoop f (s.drop (i + sep.length)) sep + 1 := by
        simp [countLoop, hi]
      have hg : genSplitLoop sep (countLoop f (s.drop (i + sep.length)) sep + 1) s =
          s.take i :: genSplitLoop sep (countLoop f (s.drop (i + sep.length)) sep)
            (s.drop (i + sep.length)) := by
        simp [genSplitLoop, hi]
      simp only [hc, hg, List.getLast_cons (genSplitLoop_ne_nil _ _ _)]
      exact ih _ hd

theorem countLoop_le (sep : GoString) (f : Nat) (s : GoString) : countLoop f s sep ≤ f := by
  induction f generalizing s with
  | zero => simp [countLoop]
  | succ f ih =>
    simp only [countLoop]
    split
    · omega
    · exact Nat.succ_le_succ (ih _)

/-- The cap `len(s) + 1` of `genSplit` never bites: `split` cuts `count` times. -/
theorem split_eq (s sep : GoString) : split s sep = genSplitLoop sep (count s sep) s := by
  unfold split count
  have := countLoop_le sep s.length s
  rw [Nat.min_eq_left (by omega)]
  rfl

/-! ## Hexadecimal rendering -/

theorem hexDigit_injective (a b : Nat) (ha : a < 16) (hb : b < 16)
    (h : hexDigit a = hexDigit b) : a = b := by
  interval_cases a <;> interval_cases b <;> first | rfl | (exact absurd h (by decide))

/-- The hexadecimal rendering determines the bytes. -/
theorem hexEncode_injective (x y : List UInt8) (h : hexEncode x = hexEncode y) : x = y := by
  induction x generalizing y with
  | nil =>
    cases y with
    | nil => rfl
    | cons b y => simp [hexEncode] at h
  | cons a x ih =>
    cases y with
    | nil => simp [hexEncode] at h
    | cons b y =>
      simp only [hexEncode, List.cons.injEq] at h
      obtain ⟨h1, h2, h3⟩ := h
      have ha : a.toNat < 256 := a.val.isLt
      have hb : b.toNat < 256 := b.val.isLt
      have e1 := hexDigit_injective _ _ (by omega) (by omega) h1
      have e2 := hexDigit_injective _ _ (Nat.mod_lt _ (by decide)) (Nat.mod_lt _ (by decide)) h2
      have e : a.toNat = b.toNat := by omega
      have hab : a = b := UInt8.ext_iff.mpr e
      rw [hab, ih y h3]

theorem hexEncode_length (x : List UInt8) : (hexEncode x).length = 2 * x.length := by
  induction x with
  | nil => rfl
  | cons a x ih => simp only [hexEncode, List.length_cons, ih]; omega

theorem hexDigit_mem (n : Nat) (h : n < 16) : hexDigit n ∈ str "0123456789abcdef" := by
  interval_cases n <;> decide

theorem hexEncode_mem (x : List UInt8) (c : UInt8) (h : c ∈ hexEncode x) :
    c ∈ str "0123456789abcdef" := by
  induction x with
  | nil => simp [hexEncode] at h
  | cons a x ih =>
    have ha : a.toNat < 256 := a.val.isLt
    simp only [hexEncode, List.mem_cons] at h
    rcases h with h | h | h
    · rw [h]; exact hexDigit_mem _ (by omega)
    · rw [h]; exact hexDigit_mem _ (Nat.mod_lt _ (by decide))
    · exact ih h

theorem putUint_length (n x : Nat) : (putUint n x).length = n := by
  induction n with
  | zero => rfl
  | succ n ih => simp [putUint, ih]

/-- A SHA-1 digest has 20 bytes. -/
theorem sha1Sum_length (m : GoString) : (sha1Sum m).length = 20 := by
  simp [sha1Sum, putUint_length]


/-! ## Request headers -/

theorem setHeaders_lookup_not_mem (req : Request) (hs : GoMap GoString) (n : GoString)
    (hn : ∀ e ∈ hs, CanonicalMIMEHeaderKey e.1 ≠ n) :
    (setHeaders req hs).header.lookup n = req.header.lookup n := by
  induction hs generalizing req with
  | nil => rfl
  | cons e rest ih =>
    obtain ⟨k, v⟩ := e
    simp only [setHeaders]
    rw [ih _ (fun e he => hn e (List.mem_cons_of_mem _ he))]
    exact lookup_set_ne _ _ _ _ (hn (k, v) (List.mem_cons_self _ _))

/-- With distinct canonical names, every configured header is carried under its canonical name. -/
theorem setHeaders_lookup_mem (req : Request) (hs : GoMap GoString) (k v : GoString)
    (hnd : (hs.map fun e => CanonicalMIMEHeaderKey e.1).Nodup) (hm : (k, v) ∈ hs) :
    (setHeaders req hs).header.lookup (CanonicalMIMEHeaderKey k) = some [v] := by
  induction hs generalizing req with
  | nil => simp at hm
  | cons e rest ih =>
    obtain ⟨k', v'⟩ := e
    simp only [List.map_cons, List.nodup_cons, List.mem_map, not_exists, not_and] at hnd
    simp only [setHeaders]
    rcases List.mem_cons.mp hm with heq | hmem
    · obtain ⟨rfl, rfl⟩ := Prod.mk.inj heq
      rw [setHeaders_lookup_not_mem _ _ _ (fun e he => hnd.1 e he)]
      exact lookup_set_self _ _ _
    · exact ih _ hnd.2 hmem

/-- With distinct canonical names, the order of the header loop does not matter. -/
theorem setHeaders_perm (req : Request) (hs hs' : GoMap GoString) (n : GoString)
    (hnd : (hs.map fun e => CanonicalMIMEHeaderKey e.1).Nodup) (hp : hs'.Perm hs) :
    (setHeaders req hs').header.lookup n = (setHeaders req hs).header.lookup n := by
  have hnd' : (hs'.map fun e => CanonicalMIMEHeaderKey e.1).Nodup :=
    ((hp.map _).nodup_iff).mpr hnd
  by_cases h : ∃ e ∈ hs, CanonicalMIMEHeaderKey e.1 = n
  · obtain ⟨⟨k, v⟩, he, rfl⟩ := h
    rw [setHeaders_lookup_mem req hs k v hnd he,
      setHeaders_lookup_mem req hs' k v hnd' (hp.mem_iff.mpr he)]
  · have h1 : ∀ e ∈ hs, CanonicalMIMEHeaderKey e.1 ≠ n := fun e he hc => h ⟨e, he, hc⟩
    have h2 : ∀ e ∈ hs', CanonicalMIMEHeaderKey e.1 ≠ n :=
      fun e he hc => h ⟨e, hp.mem_iff.mp he, hc⟩
    rw [setHeaders_lookup_not_mem req hs n h1, setHeaders_lookup_not_mem req hs' n h2]

/-! ## The identifier -/

theorem lookup_of_mem {V : Type} (m : GoMap V) (k : GoString) (v : V)
    (hnd : m.keys.Nodup) (hm : (k, v) ∈ m) : m.lookup k = some v := by
  induction m with
  | nil => simp at hm
  | cons e rest ih =>
    obtain ⟨k', v'⟩ := e
    simp only [GoMap.keys, List.map_cons, List.nodup_cons] at hnd
    rcases List.mem_cons.mp hm with heq | hmem
    · obtain ⟨rfl, rfl⟩ := Prod.mk.inj heq
      simp [GoMap.lookup]
    · have hne : k' ≠ k := by
        intro hk
        subst hk
        exact hnd.1 (List.mem_map_of_mem Prod.fst hmem)
      simp only [GoMap.lookup, hne, if_false]
      exact ih hnd.2 hmem

theorem flatMap_congr_mem {α β : Type} (l : List α) (f g : α → List β)
    (h : ∀ e ∈ l, f e = g e) : l.flatMap f = l.flatMap g := by
  induction l with
  | nil => rfl
  | cons a l ih =>
    simp only [List.flatMap_cons]
    rw [h a (List.mem_cons_self _ _), ih (fun e he => h e (List.mem_cons_of_mem _ he))]

/-- The identifier of a successful call. -/
theorem read_id (env : Http) (data : ResourceData) (resp : Response)
    (h : Succeeds env data resp) :
    (read env data).2.id =
      some (hexEncode (sha1Sum (resp.bodyBytes ++ joinedValues resp.header))) := by
  rw [read_of_succeeds env data resp h]
  simp only [Digest.Sum, responseLoop_written, Digest.Write, sha1New, List.nil_append]

/-- The strings read back from `response_headers`, with the joined values
for the two names that are not read back, are the joined values. -/
theorem stored_values (hs : Header) (h : Digest) (hnd : hs.keys.Nodup) :
    (hs.flatMap fun e =>
      if e.1 = countKey ∨ e.1 = listCountKey then join e.2 commaSpace
      else GoMap.getD (setMapAttr (responseLoop hs [] h).1) e.1 []) = joinedValues hs := by
  unfold joinedValues
  apply flatMap_congr_mem
  rintro ⟨k, v⟩ he
  have hk : k ∈ hs.keys := List.mem_map_of_mem Prod.fst he
  by_cases hc : k = countKey ∨ k = listCountKey
  · simp only [hc, if_true]
  · have h1 : k ≠ countKey := fun e => hc (Or.inl e)
    have h2 : k ≠ listCountKey := fun e => hc (Or.inr e)
    simp only [hc, if_false, GoMap.getD, setMapAttr_lookup _ k h1 h2,
      responseLoop_lookup hs [] h k hnd hk, lookup_of_mem hs k v hnd he, Option.map_some',
      Option.getD_some]

/-! ## Model validation: known answers -/

set_option maxRecDepth 100000

/-- The SHA-1 model reproduces the FIPS 180 test vector for `abc`. -/
theorem sha1Sum_abc :
    hexEncode (sha1Sum (str "abc")) = str "a9993e364706816aba3e25717850c26c9cd0d89d" := by
  decide

/-- The SHA-1 model reproduces the digest of the empty message. -/
theorem sha1Sum_empty :
    hexEncode (sha1Sum []) = str "da39a3ee5e6b4b0d3255bfef95601890afd80709" := by
  decide

/-- The handler of the test server turns the configured headers of
`TestDataSource_Headers` into one single-valued and one two-valued header. -/
theorem serverHeaders_headersConfig :
    serverHeaders [] headersConfig =
      [(str "X-Test", [str "test"]), (str "X-Test-Multi", [str "test-1", str "test-2"])] := by
  decide

/-! ## C1: the status check -/

/-- C1 (as stated, refuted). The client answers with the expected status 200
and a body that cannot be drained: the exchange succeeded at the transport
level and the status matches, yet `read` fails, so failure is not equivalent
to a status mismatch. -/
theorem status_match_still_fails :
    (constHttp respTruncated).newRequestErr exampleData.getMethod exampleData.url = none ∧
    (constHttp respTruncated).clientDo (buildRequest exampleData) = Except.ok respTruncated ∧
    ¬ (hasError (read (constHttp respTruncated) exampleData).1 = true ↔
        respTruncated.statusCode ≠ exampleData.getStatus) := by
  refine ⟨rfl, rfl, ?_⟩
  intro h
  exact (h.mp (by decide)) (by decide)

/-- C1 (amended). When the client returns a response, `read` fails exactly
when the status differs from the expected one (default 200) or the body
cannot be read; when the status differs, `read` returns the single error
`HTTP status code does not match: expected <expected> actual <actual>` with
both values in decimal and leaves the data untouched, whatever the body read
would have given. -/
theorem read_status_check (env : Http) (data : ResourceData) (resp : Response)
    (hreq : env.newRequestErr data.getMethod data.url = none)
    (hdo : env.clientDo (buildRequest data) = Except.ok resp) :
    (hasError (read env data).1 = true ↔
      (resp.statusCode ≠ data.getStatus ∨ resp.bodyErr ≠ none)) ∧
    (resp.statusCode ≠ data.getStatus →
      read env data =
        ([⟨Severity.Error, str "HTTP status code does not match: expected " ++
            formatInt data.getStatus ++ str " actual " ++ formatInt resp.statusCode⟩], data)) ∧
    (data.status = none → data.getStatus = 200) ∧
    str "HTTP status code does not match: expected " ++ formatInt 200 ++ str " actual " ++
      formatInt 404 = str "HTTP status code does not match: expected 200 actual 404" := by
  refine ⟨?_, ?_, ?_, by decide⟩
  · by_cases h3 : resp.statusCode = data.getStatus
    · cases h4 : resp.bodyErr with
      | some err => simp [read, hreq, hdo, h3, h4, diagFromErr, hasError]
      | none => simp [read, hreq, hdo, h3, h4, hasError]
    · simp [read, hreq, hdo, h3, diagErrorf, hasError]
  · intro h3
    simp [read, hreq, hdo, h3, diagErrorf]
  · intro h
    simp [ResourceData.getStatus, h, defaultStatus]

/-- C1 (instance). `TestDataSource_NotFound`: status 404 against the default
expectation gives the one error `... expected 200 actual 404`. -/
theorem read_status_check_witness :
    read (constHttp respNotFound) exampleData =
      ([⟨Severity.Error, str "HTTP status code does not match: expected 200 actual 404"⟩],
        exampleData) :=
  (read_status_check (constHttp respNotFound) exampleData respNotFound rfl rfl).2.1 (by decide)

/-! ## C2: the response body -/

/-- C2. When the request is accepted, the client returns a response with the
expected status and the body is drained without error, `read` returns no
diagnostics and `response_body` is exactly the bytes of the body. -/
theorem read_response_body (env : Http) (data : ResourceData) (resp : Response)
    (h : Succeeds env data resp) :
    (read env data).1 = [] ∧ (read env data).2.response_body = some resp.bodyBytes := by
  rw [read_of_succeeds env data resp h]
  exact ⟨rfl, rfl⟩

/-- C2 (instance). The empty body is stored as the empty string. -/
theorem read_response_body_witness :
    Succeeds (constHttp respEmpty) exampleData respEmpty ∧
    (read (constHttp respEmpty) exampleData).1 = [] ∧
    (read (constHttp respEmpty) exampleData).2.response_body = some [] :=
  ⟨⟨rfl, rfl, rfl, rfl⟩,
    read_response_body (constHttp respEmpty) exampleData respEmpty ⟨rfl, rfl, rfl, rfl⟩⟩

/-! ## C3: the response headers -/

/-- C3 (as stated, refuted). A successful response carries one header, named
`%` with the value `v`. The value is written to the hash, but the map stored by
`data.Set` is empty: `response_headers` does not have the header names of the
response, and the string hashed for that header is stored nowhere. -/
theorem response_header_name_dropped :
    Succeeds (constHttp respPercent) exampleData respPercent ∧
    respPercent.header.lookup (str "%") = some [str "v"] ∧
    (read (constHttp respPercent) exampleData).2.response_headers = some [] ∧
    (responseLoop respPercent.header [] (sha1New.Write respPercent.bodyBytes)).2.written =
      str "testv" ∧
    (read (constHttp respPercent) exampleData).2.id =
      some (str "11ac15a8704f8e32f7951f2977a6557de986f7a6") := by
  refine ⟨⟨rfl, rfl, rfl, rfl⟩, by decide, by decide, by decide, by decide⟩

/-- C3 (amended). On success `response_headers` has exactly the names of the
response header map other than `%` and `#`, each mapped to its values joined
with `", "` in order; the string stored for each such header is the string
written to the hash for it, and a header named `%` or `#` is written to the
hash all the same. -/
theorem read_response_headers (env : Http) (data : ResourceData) (resp : Response)
    (h : Succeeds env data resp) (hnd : resp.header.keys.Nodup) :
    ∃ rh, (read env data).2.response_headers = some rh ∧
      (∀ k, k ≠ str "%" → k ≠ str "#" →
        rh.lookup k = (resp.header.lookup k).map fun v => join v commaSpace) ∧
      rh.lookup (str "%") = none ∧ rh.lookup (str "#") = none ∧
      (read env data).2.id = some (hexEncode (sha1Sum
        (resp.bodyBytes ++ resp.header.flatMap fun e =>
          if e.1 = str "%" ∨ e.1 = str "#" then join e.2 commaSpace
          else GoMap.getD rh e.1 []))) ∧
      join [str "test-1", str "test-2"] commaSpace = str "test-1, test-2" ∧
      ∀ v, join [v] commaSpace = v := by
  refine ⟨setMapAttr (responseLoop resp.header [] (sha1New.Write resp.bodyBytes)).1, ?_, ?_,
    (setMapAttr_lookup_count _).1, (setMapAttr_lookup_count _).2, ?_, by decide, fun v => rfl⟩
  · rw [read_of_succeeds env data resp h]
  · intro k h1 h2
    rw [setMapAttr_lookup _ k h1 h2]
    by_cases hk : k ∈ resp.header.keys
    · exact responseLoop_lookup _ _ _ _ hnd hk
    · rw [responseLoop_lookup_not_mem _ _ _ _ hk, lookup_eq_none_of_not_mem _ _ hk]
      rfl
  · rw [read_id env data resp h]
    exact congrArg (fun x => some (hexEncode (sha1Sum (resp.bodyBytes ++ x))))
      (stored_values _ _ hnd).symm

/-- C3 (instance). `TestDataSource_Headers`: the two-valued header is stored
as `test-1, test-2`. -/
theorem read_response_headers_witness :
    Succeeds (constHttp respHeaders) exampleData respHeaders ∧
    respHeaders.header.keys.Nodup ∧
    ∃ rh, (read (constHttp respHeaders) exampleData).2.response_headers = some rh ∧
      (∀ k, k ≠ str "%" → k ≠ str "#" →
        rh.lookup k = (respHeaders.header.lookup k).map fun v => join v commaSpace) ∧
      rh.lookup (str "%") = none ∧ rh.lookup (str "#") = none ∧
      (read (constHttp respHeaders) exampleData).2.id = some (hexEncode (sha1Sum
        (respHeaders.bodyBytes ++ respHeaders.header.flatMap fun e =>
          if e.1 = str "%" ∨ e.1 = str "#" then join e.2 commaSpace
          else GoMap.getD rh e.1 []))) ∧
      join [str "test-1", str "test-2"] commaSpace = str "test-1, test-2" ∧
      ∀ v, join [v] commaSpace = v :=
  ⟨⟨rfl, rfl, rfl, rfl⟩, by decide,
    read_response_headers (constHttp respHeaders) exampleData respHeaders ⟨rfl, rfl, rfl, rfl⟩
      (by decide)⟩

/-- The response headers stored for `TestDataSource_Headers` are the configured ones. -/
theorem read_headersConfig :
    (read (constHttp respHeaders) exampleData).2.response_headers = some headersConfig := by
  decide

/-! ## C4: determinism of the identifier -/

/-- C4 (as stated, refuted). Two successful calls receive the same body and
the same header map (the same names with the same values); the first call
ranges over the map as `A`, `B` and the second as `B`, `A`, and the two
identifiers differ. -/
theorem id_depends_on_iteration_order :
    Succeeds (constHttp respAB) exampleData respAB ∧
    Succeeds (constHttp respBA) exampleData respBA ∧
    respAB.bodyBytes = respBA.bodyBytes ∧
    respAB.header.Perm respBA.header ∧
    (∀ k, respAB.header.lookup k = respBA.header.lookup k) ∧
    (read (constHttp respAB) exampleData).2.id =
      some (str "9c7d771ec6334bba499eb72772c71f1acce517f3") ∧
    (read (constHttp respBA) exampleData).2.id =
      some (str "bc210723f1d57c6f0383c1d502ac52c3978fd6f6") ∧
    (read (constHttp respAB) exampleData).2.id ≠ (read (constHttp respBA) exampleData).2.id := by
  refine ⟨⟨rfl, rfl, rfl, rfl⟩, ⟨rfl, rfl, rfl, rfl⟩, rfl, List.Perm.swap _ _ _, ?_,
    by decide, by decide, by decide⟩
  intro k
  by_cases h1 : str "A" = k
  · subst h1; decide
  · by_cases h2 : str "B" = k
    · subst h2; decide
    · simp [respAB, respBA, GoMap.lookup, h1, h2]

/-- C4 (amended). Two successful calls that receive byte-identical bodies and
range over identical header entries in the same order produce identical
identifiers, whatever the requests were: the identifier is a function of the
body and of the sequence of header entries as iterated. -/
theorem id_deterministic (env₁ env₂ : Http) (data₁ data₂ : ResourceData)
    (resp₁ resp₂ : Response)
    (h₁ : Succeeds env₁ data₁ resp₁) (h₂ : Succeeds env₂ data₂ resp₂)
    (hbody : resp₁.bodyBytes = resp₂.bodyBytes) (hheader : resp₁.header = resp₂.header) :
    (read env₁ data₁).2.id = (read env₂ data₂).2.id := by
  rw [read_id env₁ data₁ resp₁ h₁, read_id env₂ data₂ resp₂ h₂, hbody, hheader]

/-- C4 (instance). Two different requests answered by the response of
`TestDataSource_Simple` get the same identifier. -/
theorem id_deterministic_witness :
    (read (constHttp respSimple) exampleData).2.id =
      (read (constHttp respSimple) (getData (str "http://localhost/other"))).2.id :=
  id_deterministic (constHttp respSimple) (constHttp respSimple) exampleData
    (getData (str "http://localhost/other")) respSimple respSimple
    ⟨rfl, rfl, rfl, rfl⟩ ⟨rfl, rfl, rfl, rfl⟩ rfl rfl

/-! ## C5: sensitivity of the identifier -/

/-- C5. Between two successful calls, a different body under the same header
entries, or a different joined value for one header under the same body and
the same other entries in the same order, gives a different byte sequence
written to the hash; and the identifiers differ unless SHA-1 collides on these
two sequences. -/
theorem id_sensitive (env₁ env₂ : Http) (data₁ data₂ : ResourceData)
    (resp₁ resp₂ : Response)
    (h₁ : Succeeds env₁ data₁ resp₁) (h₂ : Succeeds env₂ data₂ resp₂)
    (hchg : (resp₁.header = resp₂.header ∧ resp₁.bodyBytes ≠ resp₂.bodyBytes) ∨
      (resp₁.bodyBytes = resp₂.bodyBytes ∧ ∃ pre post k v w,
        resp₁.header = pre ++ (k, v) :: post ∧ resp₂.header = pre ++ (k, w) :: post ∧
        join v commaSpace ≠ join w commaSpace)) :
    (responseLoop resp₁.header [] (sha1New.Write resp₁.bodyBytes)).2.written ≠
      (responseLoop resp₂.header [] (sha1New.Write resp₂.bodyBytes)).2.written ∧
    ((sha1Sum (responseLoop resp₁.header [] (sha1New.Write resp₁.bodyBytes)).2.written =
        sha1Sum (responseLoop resp₂.header [] (sha1New.Write resp₂.bodyBytes)).2.written →
      (responseLoop resp₁.header [] (sha1New.Write resp₁.bodyBytes)).2.written =
        (responseLoop resp₂.header [] (sha1New.Write resp₂.bodyBytes)).2.written) →
      (read env₁ data₁).2.id ≠ (read env₂ data₂).2.id) := by
  have hw : (responseLoop resp₁.header [] (sha1New.Write resp₁.bodyBytes)).2.written ≠
      (responseLoop resp₂.header [] (sha1New.Write resp₂.bodyBytes)).2.written := by
    simp only [responseLoop_written, Digest.Write, sha1New, List.nil_append]
    rcases hchg with ⟨hh, hb⟩ | ⟨hb, pre, post, k, v, w, e₁, e₂, hj⟩
    · rw [hh]
      exact fun h => hb (List.append_cancel_right h)
    · rw [hb, e₁, e₂]
      intro h
      have h' := List.append_cancel_left h
      simp only [joinedValues, List.flatMap_append, List.flatMap_cons] at h'
      exact hj (List.append_cancel_right (List.append_cancel_left h'))
  refine ⟨hw, fun hcf hid => ?_⟩
  rw [read_of_succeeds env₁ data₁ resp₁ h₁, read_of_succeeds env₂ data₂ resp₂ h₂] at hid
  simp only [Option.some.injEq, Digest.Sum] at hid
  exact hw (hcf (hexEncode_injective _ _ hid))

/-- C5 (instance). Bodies `test` and `tesu` under the same header: SHA-1 does
not collide on the two inputs and the identifiers differ. -/
theorem id_sensitive_witness :
    (read (constHttp respSimple) exampleData).2.id ≠
      (read (constHttp respOtherBody) exampleData).2.id :=
  (id_sensitive (constHttp respSimple) (constHttp respOtherBody) exampleData exampleData
    respSimple respOtherBody ⟨rfl, rfl, rfl, rfl⟩ ⟨rfl, rfl, rfl, rfl⟩
    (Or.inl ⟨rfl, by decide⟩)).2 (fun h => absurd h (by decide))

/-! ## C6: what the identifier is -/

/-- C6. On success the identifier is the lowercase hexadecimal rendering, 40
characters each among `0-9a-f`, of the SHA-1 digest of the body followed by,
for each header name in iteration order, that header's values joined with
`", "`; header names are not part of the hashed bytes. -/
theorem id_is_sha1_hex (env : Http) (data : ResourceData) (resp : Response)
    (h : Succeeds env data resp) :
    ∃ id, (read env data).2.id = some id ∧
      id = hexEncode (sha1Sum (resp.bodyBytes ++ joinedValues resp.header)) ∧
      id.length = 40 ∧ ∀ c ∈ id, c ∈ str "0123456789abcdef" := by
  refine ⟨_, read_id env data resp h, rfl, ?_, fun c hc => hexEncode_mem _ c hc⟩
  rw [hexEncode_length, sha1Sum_length]

/-- C6 (instance). The identifier of `TestDataSource_Headers`. -/
theorem id_is_sha1_hex_witness :
    Succeeds (constHttp respHeaders) exampleData respHeaders ∧
    ∃ id, (read (constHttp respHeaders) exampleData).2.id = some id ∧
      id = hexEncode (sha1Sum (respHeaders.bodyBytes ++ joinedValues respHeaders.header)) ∧
      id.length = 40 ∧ ∀ c ∈ id, c ∈ str "0123456789abcdef" :=
  ⟨⟨rfl, rfl, rfl, rfl⟩,
    id_is_sha1_hex (constHttp respHeaders) exampleData respHeaders ⟨rfl, rfl, rfl, rfl⟩⟩

/-- The bytes hashed for `TestDataSource_Headers` and the resulting identifier. -/
theorem id_headersConfig :
    respHeaders.bodyBytes ++ joinedValues respHeaders.header = str "testtesttest-1, test-2" ∧
    (read (constHttp respHeaders) exampleData).2.id =
      some (str "e1c383e196f16cebee5dfb2fad5902a96872bd0a") := by
  decide

/-! ## C7: no partial result -/

/-- C7. Each of the four error paths of `read` (request construction,
transport, status mismatch, body read) returns an error and leaves the
resource data exactly as on entry; and whenever `read` returns no diagnostics,
`response_headers`, `response_body` and the identifier have all been set and
nothing else has changed. -/
theorem read_no_partial_result (env : Http) (data : ResourceData) :
    (∀ err, env.newRequestErr data.getMethod data.url = some err →
      hasError (read env data).1 = true ∧ (read env data).2 = data) ∧
    (env.newRequestErr data.getMethod data.url = none →
      ∀ err, env.clientDo (buildRequest data) = Except.error err →
        hasError (read env data).1 = true ∧ (read env data).2 = data) ∧
    (env.newRequestErr data.getMethod data.url = none →
      ∀ resp, env.clientDo (buildRequest data) = Except.ok resp →
        resp.statusCode ≠ data.getStatus →
          hasError (read env data).1 = true ∧ (read env data).2 = data) ∧
    (env.newRequestErr data.getMethod data.url = none →
      ∀ resp, env.clientDo (buildRequest data) = Except.ok resp →
        resp.statusCode = data.getStatus → ∀ err, resp.bodyErr = some err →
          hasError (read env data).1 = true ∧ (read env data).2 = data) ∧
    ((read env data).1 ≠ [] → (read env data).2 = data) ∧
    ((read env data).1 = [] → ∃ rh body id,
      (read env data).2 =
        { data with response_headers := some rh, response_body := some body, id := some id }) := by
  refine ⟨?_, ?_, ?_, ?_, ?_, ?_⟩
  · intro err h1
    simp [read, h1, diagErrorf, hasError]
  · intro h1 err h2
    simp [read, h1, h2, diagErrorf, hasError]
  · intro h1 resp h2 h3
    simp [read, h1, h2, h3, diagErrorf, hasError]
  · intro h1 resp h2 h3 err h4
    simp [read, h1, h2, h3, h4, diagFromErr, hasError]
  · intro hne
    rcases read_error_or_succeeds env data with h | ⟨resp, h⟩
    · exact h.2
    · rw [read_of_succeeds env data resp h] at hne
      exact absurd rfl hne
  · intro hnil
    rcases read_error_or_succeeds env data with h | ⟨resp, h⟩
    · rw [hnil] at h
      exact absurd h.1 (by decide)
    · rw [read_of_succeeds env data resp h]
      exact ⟨_, _, _, rfl⟩

/-! ## C8: request headers -/

/-- C8 (as stated, refuted). A key `x-test` is not kept as the caller wrote it:
`http.Header.Set` stores it under `X-Test`. And with the two distinct keys
`x-test` and `X-Test` the request headers depend on the order in which the
mapping is ranged over. -/
theorem request_header_key_not_preserved :
    (buildRequest { exampleData with headers := [(str "x-test", str "a")] }).header.lookup
      (str "x-test") = none ∧
    (buildRequest { exampleData with headers := [(str "x-test", str "a")] }).header.lookup
      (str "X-Test") = some [str "a"] ∧
    (buildRequest { exampleData with
      headers := [(str "x-test", str "a"), (str "X-Test", str "b")] }).header.lookup
      (str "X-Test") = some [str "b"] ∧
    (buildRequest { exampleData with
      headers := [(str "X-Test", str "b"), (str "x-test", str "a")] }).header.lookup
      (str "X-Test") = some [str "a"] := by
  decide

/-- C8 (amended). For every headers mapping whose keys have pairwise distinct
canonical forms, after the header loop the request carries, for each entry,
a header named by the canonical MIME form of the key (the key itself when it
holds a byte that is not a token byte) whose only value is the entry's
string, and no other header; so the request headers do not depend on the order
in which the mapping is ranged over. -/
theorem request_headers_set (data : ResourceData)
    (hnd : (data.headers.map fun e => CanonicalMIMEHeaderKey e.1).Nodup) :
    (∀ k v, (k, v) ∈ data.headers →
      (buildRequest data).header.lookup (CanonicalMIMEHeaderKey k) = some [v]) ∧
    (∀ n, (∀ e ∈ data.headers, CanonicalMIMEHeaderKey e.1 ≠ n) →
      (buildRequest data).header.lookup n = none) ∧
    (∀ hs, hs.Perm data.headers → ∀ n,
      (buildRequest { data with headers := hs }).header.lookup n =
        (buildRequest data).header.lookup n) ∧
    (∀ k : GoString, k.all validHeaderFieldByte = false → CanonicalMIMEHeaderKey k = k) ∧
    CanonicalMIMEHeaderKey (str "X-Test") = str "X-Test" := by
  refine ⟨?_, ?_, ?_, ?_, by decide⟩
  · intro k v hm
    exact setHeaders_lookup_mem _ _ k v hnd hm
  · intro n hn
    unfold buildRequest
    rw [setHeaders_lookup_not_mem _ _ n hn]
    rfl
  · intro hs hp n
    exact setHeaders_perm _ _ _ n hnd hp
  · intro k hk
    unfold CanonicalMIMEHeaderKey canonicalMIMEHeaderKeySlow
    split
    · simp [hk]
    · rfl

/-- C8 (instance). Two headers with distinct canonical names. -/
theorem request_headers_set_witness :
    (buildRequest { exampleData with
      headers := [(str "x-test", str "a"), (str "Accept", str "b")] }).header.lookup
      (CanonicalMIMEHeaderKey (str "x-test")) = some [str "a"] :=
  (request_headers_set
    { exampleData with headers := [(str "x-test", str "a"), (str "Accept", str "b")] }
    (by decide)).1 (str "x-test") (str "a") (by decide)

/-! ## C9: split then join -/

theorem addPieces_singleton (ck k : GoString) (qs ps : List GoString)
    (hk : CanonicalMIMEHeaderKey k = ck) :
    addPieces [(ck, qs)] k ps = [(ck, qs ++ ps)] := by
  induction ps generalizing qs with
  | nil => simp [addPieces]
  | cons p rest ih =>
    simp only [addPieces, Header.Add, hk, GoMap.set, GoMap.getD, GoMap.lookup, if_true,
      Option.getD_some]
    rw [ih]
    simp

theorem addPieces_nil (k : GoString) (ps : List GoString) (h : ps ≠ []) :
    addPieces [] k ps = [(CanonicalMIMEHeaderKey k, ps)] := by
  cases ps with
  | nil => exact absurd rfl h
  | cons p rest =>
    simp only [addPieces, Header.Add, GoMap.set, GoMap.getD, GoMap.lookup, Option.getD_none,
      List.nil_append]
    rw [addPieces_singleton _ k _ _ rfl]
    rfl

/-- C9. For every string `v`, splitting `v` on `", "` and joining the pieces
with `", "` gives back `v`; the test server, adding the pieces of `v` one by
one under `k`, builds the one header whose values are those pieces, and the
loop of `read` stores `v` for it. The configured values `test-1, test-2` and
`test` split into two pieces and one piece. -/
theorem split_join_round_trip :
    (∀ v, join (split v commaSpace) commaSpace = v) ∧
    (∀ k v, addPieces [] k (split v commaSpace) =
      [(CanonicalMIMEHeaderKey k, split v commaSpace)]) ∧
    (∀ k v rh h, (responseLoop (addPieces [] k (split v commaSpace)) rh h).1.lookup
      (CanonicalMIMEHeaderKey k) = some v) ∧
    split (str "test-1, test-2") commaSpace = [str "test-1", str "test-2"] ∧
    split (str "test") commaSpace = [str "test"] := by
  refine ⟨fun v => join_split v commaSpace, ?_, ?_, by decide, by decide⟩
  · intro k v
    exact addPieces_nil k _ (split_ne_nil v commaSpace)
  · intro k v rh h
    rw [addPieces_nil k _ (split_ne_nil v commaSpace)]
    simp only [responseLoop, lookup_set_self, join_split]

/-! ## C10: the identifier is not injective -/

/-- C10. Body `ab` with a header of value `c`, and body `a` with a header of
value `bc`, are two successful responses with different bodies and different
header values that write the same bytes to the hash and get the same
identifier; and renaming a header while keeping its values leaves the
identifier unchanged. -/
theorem id_not_injective :
    (Succeeds (constHttp respAbC) exampleData respAbC ∧
     Succeeds (constHttp respABc) exampleData respABc ∧
     respAbC.bodyBytes ≠ respABc.bodyBytes ∧
     respAbC.header.lookup (str "X-Test") ≠ respABc.header.lookup (str "X-Test") ∧
     (responseLoop respAbC.header [] (sha1New.Write respAbC.bodyBytes)).2.written =
       (responseLoop respABc.header [] (sha1New.Write respABc.bodyBytes)).2.written ∧
     (read (constHttp respAbC) exampleData).2.id = (read (constHttp respABc) exampleData).2.id) ∧
    (∀ (env₁ env₂ : Http) (data₁ data₂ : ResourceData) (resp₁ resp₂ : Response)
      (pre post : Header) (k n : GoString) (v : List GoString),
      Succeeds env₁ data₁ resp₁ → Succeeds env₂ data₂ resp₂ →
      resp₁.bodyBytes = resp₂.bodyBytes →
      resp₁.header = pre ++ (k, v) :: post → resp₂.header = pre ++ (n, v) :: post →
      (read env₁ data₁).2.id = (read env₂ data₂).2.id) := by
  refine ⟨⟨⟨rfl, rfl, rfl, rfl⟩, ⟨rfl, rfl, rfl, rfl⟩, by decide, by decide, by decide, ?_⟩, ?_⟩
  · rw [read_id (constHttp respAbC) exampleData respAbC ⟨rfl, rfl, rfl, rfl⟩,
      read_id (constHttp respABc) exampleData respABc ⟨rfl, rfl, rfl, rfl⟩]
    have hw : respAbC.bodyBytes ++ joinedValues respAbC.header =
        respABc.bodyBytes ++ joinedValues respABc.header := by decide
    rw [hw]
  · intro env₁ env₂ data₁ data₂ resp₁ resp₂ pre post k n v h₁ h₂ hb e₁ e₂
    rw [read_id env₁ data₁ resp₁ h₁, read_id env₂ data₂ resp₂ h₂, hb, e₁, e₂]
    simp only [joinedValues, List.flatMap_append, List.flatMap_cons]

end HttpProvider
